import Mathlib

set_option autoImplicit false

/-!
Verification development for the canto-next daemon core:
the tag registry (canto_next/tag.py), the command dispatcher and watch
registry (canto_next/canto_backend.py) and the storage layer
(canto_next/storage.py).

Python dictionaries are embedded as association lists in insertion
order (a key occurs at most once in any list built by the operations
below); Python lists become Lean lists; the hook bus, the protection
registry, the feed registry and the config interface, whose sources are
not part of the verified tree, are modelled from the specification and
marked as such.
-/

/-! ## Association-list helpers (embedding of Python dict access) -/

/-- Lookup of a key in an association list: the value of the first
binding whose key matches, as Python dict indexing on a dict whose keys
are unique. -/
def lookupA {α β : Type} [DecidableEq α] : List (α × β) → α → Option β
  | [], _ => none
  | (k', v) :: rest, k => if k' = k then some v else lookupA rest k

/-- In-place replacement of the value bound to a key, as Python
`d[k] = v` when `k` is already present: the binding keeps its position. -/
def setA {α β : Type} [DecidableEq α] (l : List (α × β)) (k : α) (v : β) :
    List (α × β) :=
  l.map (fun p => if p.1 = k then (k, v) else p)

/-- Python `d[k] = v`: replace in place when the key is present,
append a new binding at the end otherwise (dict insertion order). -/
def dinsert {α β : Type} [DecidableEq α] (l : List (α × β)) (k : α) (v : β) :
    List (α × β) :=
  match lookupA l k with
  | some _ => setA l k v
  | none => l ++ [(k, v)]

/-! ## Hook calls published by the tag registry (tag.py)

The registry publishes through `call_hook`; the hook names are the
string literals of the source: `"daemon_new_tag"` at tag creation and
`"daemon_tag_change"` at flush time. -/

inductive HookCall where
  | daemonNewTag (names : List String)
  | daemonTagChange (tag : String)
  deriving DecidableEq

/-- The hook-bus name under which a call is published, exactly the
string literal passed to `call_hook` in tag.py. -/
def HookCall.hookName : HookCall → String
  | .daemonNewTag _ => "daemon_new_tag"
  | .daemonTagChange _ => "daemon_tag_change"

/-! ## CantoTags (canto_next/tag.py) -/

structure CantoTags where
  tags : List (String × List String)
  changed_tags : List String
  extra_tags : List (String × List String)
  deriving DecidableEq

/-- tag.py `CantoTags.tag_changed`: record a tag as dirty unless it is
already recorded. -/
def CantoTags.tag_changed (s : CantoTags) (tag : String) : CantoTags :=
  if tag ∈ s.changed_tags then s
  else { s with changed_tags := s.changed_tags ++ [tag] }

/-- tag.py `CantoTags.get_tag`: the item sequence of a tag, empty for an
unknown tag. -/
def CantoTags.get_tag (s : CantoTags) (tag : String) : List String :=
  match lookupA s.tags tag with
  | some l => l
  | none => []

/-- tag.py `CantoTags.get_tags`: the list of known tag names. -/
def CantoTags.get_tags (s : CantoTags) : List String :=
  s.tags.map Prod.fst

/-- tag.py `CantoTags.set_extra_tags`. -/
def CantoTags.set_extra_tags (s : CantoTags) (tag : String)
    (extra : List String) : CantoTags :=
  { s with extra_tags := dinsert s.extra_tags tag extra }

/-- One iteration of the `for name in alladded` loop of
`CantoTags.add_tag`: create the tag if absent (publishing
`daemon_new_tag`), then append the id and mark the tag dirty unless the
id is already present. -/
def CantoTags.addOne (id : String) (acc : CantoTags × List HookCall)
    (n : String) : CantoTags × List HookCall :=
  let acc1 :=
    match lookupA acc.1.tags n with
    | none => ({ acc.1 with tags := acc.1.tags ++ [(n, [])] },
               acc.2 ++ [HookCall.daemonNewTag [n]])
    | some _ => acc
  match lookupA acc1.1.tags n with
  | some l =>
      if id ∈ l then acc1
      else (CantoTags.tag_changed
              { acc1.1 with tags := setA acc1.1.tags n (l ++ [id]) } n,
            acc1.2)
  | none => acc1

/-- tag.py `CantoTags.add_tag`: resolve the name plus its configured
extra tags and run the per-name insertion over all of them, collecting
the published hook calls. -/
def CantoTags.add_tag (s : CantoTags) (id name : String) :
    CantoTags × List HookCall :=
  let extras := (lookupA s.extra_tags name).getD []
  let alladded := name :: extras
  alladded.foldl (CantoTags.addOne id) (s, [])

/-- tag.py `CantoTags.remove_tag`: remove the id from one tag if
present (Python `list.remove` drops the first occurrence, `List.erase`
here) and mark the tag dirty. -/
def CantoTags.remove_tag (s : CantoTags) (id name : String) : CantoTags :=
  match lookupA s.tags name with
  | some l =>
      if id ∈ l then
        CantoTags.tag_changed { s with tags := setA s.tags name (l.erase id) } name
      else s
  | none => s

/-- One iteration of the `for tag in self.tags` loop of
`CantoTags.remove_id`. -/
def CantoTags.removeIdStep (id : String) (st : CantoTags) (tg : String) :
    CantoTags :=
  match lookupA st.tags tg with
  | some l =>
      if id ∈ l then
        CantoTags.tag_changed { st with tags := setA st.tags tg (l.erase id) } tg
      else st
  | none => st

/-- tag.py `CantoTags.remove_id`: remove the id from every tag that
contains it, marking each affected tag dirty; the loop runs over the
key list of the dict, which the body never changes. -/
def CantoTags.remove_id (s : CantoTags) (id : String) : CantoTags :=
  (s.tags.map Prod.fst).foldl (CantoTags.removeIdStep id) s

/-- tag.py `CantoTags.do_tag_changes`: publish one `daemon_tag_change`
per recorded dirty tag, then clear the dirty list. -/
def CantoTags.do_tag_changes (s : CantoTags) : CantoTags × List HookCall :=
  ({ s with changed_tags := [] },
   s.changed_tags.map HookCall.daemonTagChange)

/-! ## Operation sequences over the tag registry -/

inductive TagOp where
  | add (id name : String)
  | removeTag (id name : String)
  | removeId (id : String)
  deriving DecidableEq

/-- The item id an operation carries. -/
def TagOp.opId : TagOp → String
  | .add i _ => i
  | .removeTag i _ => i
  | .removeId i => i

/-- Apply one mutation to the registry, dropping published events. -/
def applyOp (s : CantoTags) : TagOp → CantoTags
  | .add i n => (s.add_tag i n).1
  | .removeTag i n => s.remove_tag i n
  | .removeId i => s.remove_id i

/-- A fresh registry, as built by `CantoTags.__init__` followed by
`set_extra_tags` configuration. -/
def initTags (extra : List (String × List String)) : CantoTags :=
  { tags := [], changed_tags := [], extra_tags := extra }

/-- Run a sequence of mutations from a fresh registry. -/
def runOps (extra : List (String × List String)) (ops : List TagOp) :
    CantoTags :=
  ops.foldl applyOp (initTags extra)

example :
    (runOps [] [TagOp.add "i1" "t", TagOp.add "i2" "t", TagOp.add "i1" "t"]).get_tag "t"
      = ["i1", "i2"] := by decide

example :
    (runOps [("a", ["c"])] [TagOp.add "i1" "a"]).get_tag "c" = ["i1"] := by decide

example :
    (runOps [] [TagOp.add "i1" "t", TagOp.add "i2" "t"]).changed_tags = ["t"] := by
  decide

example :
    ((initTags []).add_tag "i1" "t").2 = [HookCall.daemonNewTag ["t"]] := by decide

example :
    (runOps [] [TagOp.add "i1" "t", TagOp.removeId "i1"]).get_tag "t" = [] := by
  decide

/-! ## Association-list lemmas -/

theorem lookupA_append {α β : Type} [DecidableEq α] (l m : List (α × β)) (k : α) :
    lookupA (l ++ m) k =
      match lookupA l k with
      | some v => some v
      | none => lookupA m k := by
  induction l with
  | nil => simp [lookupA]
  | cons p rest ih =>
      obtain ⟨k', v⟩ := p
      by_cases h : k' = k <;> simp [lookupA, h, ih]

theorem lookupA_cons {α β : Type} [DecidableEq α] (a : α) (b : β)
    (rest : List (α × β)) (k : α) :
    lookupA ((a, b) :: rest) k = if a = k then some b else lookupA rest k := rfl

theorem setA_cons {α β : Type} [DecidableEq α] (a : α) (b : β)
    (rest : List (α × β)) (k : α) (v : β) :
    setA ((a, b) :: rest) k v =
      (if a = k then (k, v) else (a, b)) :: setA rest k v := rfl

theorem lookupA_setA_self {α β : Type} [DecidableEq α] (l : List (α × β))
    (k : α) (v : β) :
    lookupA (setA l k v) k = (lookupA l k).map (fun _ => v) := by
  induction l with
  | nil => simp [lookupA, setA]
  | cons p rest ih =>
      obtain ⟨a, b⟩ := p
      rw [setA_cons]
      by_cases h : a = k
      · rw [if_pos h]
        simp [lookupA_cons, h]
      · rw [if_neg h]
        simp [lookupA_cons, h, ih]

theorem lookupA_setA_ne {α β : Type} [DecidableEq α] (l : List (α × β))
    (k t : α) (v : β) (h : t ≠ k) :
    lookupA (setA l k v) t = lookupA l t := by
  induction l with
  | nil => simp [lookupA, setA]
  | cons p rest ih =>
      obtain ⟨a, b⟩ := p
      rw [setA_cons]
      by_cases h1 : a = k
      · subst h1
        simp [lookupA_cons, Ne.symm h, ih]
      · rw [if_neg h1]
        simp only [lookupA_cons, ih]

/-! ## Tag-registry lemmas -/

theorem tags_tag_changed (s : CantoTags) (tg : String) :
    (s.tag_changed tg).tags = s.tags := by
  unfold CantoTags.tag_changed
  split <;> rfl

theorem get_tag_tag_changed (s : CantoTags) (tg t : String) :
    (s.tag_changed tg).get_tag t = s.get_tag t := by
  unfold CantoTags.get_tag
  rw [tags_tag_changed]

theorem get_tag_eq (s : CantoTags) (t : String) :
    s.get_tag t = match lookupA s.tags t with
                  | some l => l
                  | none => [] := rfl

theorem addOne_get_tag (id : String) (acc : CantoTags × List HookCall)
    (n t : String) :
    ((CantoTags.addOne id acc n).1).get_tag t =
      if n = t then
        (if id ∈ acc.1.get_tag n then acc.1.get_tag n
         else acc.1.get_tag n ++ [id])
      else acc.1.get_tag t := by
  obtain ⟨s, evs⟩ := acc
  rcases h : lookupA s.tags n with _ | l
  · -- the tag does not exist yet: it is created, then the id appended
    have hn : lookupA (s.tags ++ [(n, [])]) n = some [] := by
      rw [lookupA_append, h]
      simp [lookupA_cons]
    have hg : s.get_tag n = [] := by simp [CantoTags.get_tag, h]
    by_cases hnt : n = t
    · subst hnt
      simp only [CantoTags.addOne, h, hn, List.not_mem_nil, if_false,
        get_tag_tag_changed, hg]
      simp only [CantoTags.get_tag, tags_tag_changed]
      rw [lookupA_setA_self, hn]
      simp
    · simp only [CantoTags.addOne, h, hn, List.not_mem_nil, if_false, hnt]
      simp only [CantoTags.get_tag, tags_tag_changed]
      rw [lookupA_setA_ne _ _ _ _ (fun hc => hnt hc.symm), lookupA_append]
      have hone : lookupA ([(n, ([] : List String))]) t = none := by
        simp [lookupA_cons, lookupA, hnt]
      rw [hone]
      cases lookupA s.tags t <;> rfl
  · -- the tag exists with sequence l
    have hg : s.get_tag n = l := by simp [CantoTags.get_tag, h]
    by_cases hid : id ∈ l
    · by_cases hnt : n = t
      · subst hnt
        simp [CantoTags.addOne, h, hid, hg]
      · simp [CantoTags.addOne, h, hid, hg, hnt]
    · by_cases hnt : n = t
      · subst hnt
        simp only [CantoTags.addOne, h, hid, if_false, hg,
          get_tag_tag_changed]
        simp only [CantoTags.get_tag, tags_tag_changed]
        rw [lookupA_setA_self, h]
        simp
      · simp only [CantoTags.addOne, h, hid, if_false, hg, hnt,
          get_tag_tag_changed]
        simp only [CantoTags.get_tag, tags_tag_changed]
        rw [lookupA_setA_ne _ _ _ _ (fun hc => hnt hc.symm)]

/-- Relation between a tag sequence before and after one insertion
attempt of `id`: unchanged, or `id` appended at the end when absent. -/
def RelIns (id : String) (old cur : List String) : Prop :=
  cur = old ∨ (id ∉ old ∧ cur = old ++ [id])

theorem relIns_refl (id : String) (l : List String) : RelIns id l l :=
  Or.inl rfl

theorem relIns_trans {id : String} {a b c : List String}
    (h1 : RelIns id a b) (h2 : RelIns id b c) : RelIns id a c := by
  rcases h1 with rfl | ⟨hna, rfl⟩
  · exact h2
  · rcases h2 with rfl | ⟨hnb, rfl⟩
    · exact Or.inr ⟨hna, rfl⟩
    · exact absurd (by simp) hnb

theorem addOne_relIns (id : String) (acc : CantoTags × List HookCall)
    (n t : String) :
    RelIns id (acc.1.get_tag t) ((CantoTags.addOne id acc n).1.get_tag t) := by
  rw [addOne_get_tag]
  by_cases hnt : n = t
  · subst hnt
    by_cases hid : id ∈ acc.1.get_tag n
    · simp only [if_pos rfl, if_pos hid]
      exact relIns_refl id _
    · simp only [if_pos rfl, if_neg hid]
      exact Or.inr ⟨hid, rfl⟩
  · simp only [if_neg hnt]
    exact relIns_refl id _

theorem foldl_addOne_relIns (id : String) (names : List String)
    (acc : CantoTags × List HookCall) (t : String) :
    RelIns id (acc.1.get_tag t)
      ((names.foldl (CantoTags.addOne id) acc).1.get_tag t) := by
  induction names generalizing acc with
  | nil => exact relIns_refl id _
  | cons n ns ih =>
      exact relIns_trans (addOne_relIns id acc n t)
        (ih (CantoTags.addOne id acc n))

theorem add_tag_relIns (s : CantoTags) (id name t : String) :
    RelIns id (s.get_tag t) ((s.add_tag id name).1.get_tag t) :=
  foldl_addOne_relIns id _ (s, []) t

theorem remove_tag_get_tag (s : CantoTags) (id name t : String) :
    (s.remove_tag id name).get_tag t = s.get_tag t ∨
    (s.remove_tag id name).get_tag t = (s.get_tag t).erase id := by
  unfold CantoTags.remove_tag
  rcases h : lookupA s.tags name with _ | l
  · exact Or.inl rfl
  · have hg : s.get_tag name = l := by simp [CantoTags.get_tag, h]
    by_cases hid : id ∈ l
    · simp only [if_pos hid, get_tag_tag_changed]
      by_cases hnt : name = t
      · subst hnt
        refine Or.inr ?_
        simp only [CantoTags.get_tag]
        rw [lookupA_setA_self, h]
        simp [hg]
      · refine Or.inl ?_
        simp only [CantoTags.get_tag]
        rw [lookupA_setA_ne _ _ _ _ (fun hc => hnt hc.symm)]
    · simp [hid]

theorem removeIdStep_get_tag (id : String) (st : CantoTags) (tg t : String) :
    (CantoTags.removeIdStep id st tg).get_tag t = st.get_tag t ∨
    (CantoTags.removeIdStep id st tg).get_tag t = (st.get_tag t).erase id := by
  unfold CantoTags.removeIdStep
  rcases h : lookupA st.tags tg with _ | l
  · exact Or.inl rfl
  · have hg : st.get_tag tg = l := by simp [CantoTags.get_tag, h]
    by_cases hid : id ∈ l
    · simp only [if_pos hid, get_tag_tag_changed]
      by_cases hnt : tg = t
      · subst hnt
        refine Or.inr ?_
        simp only [CantoTags.get_tag]
        rw [lookupA_setA_self, h]
        simp [hg]
      · refine Or.inl ?_
        simp only [CantoTags.get_tag]
        rw [lookupA_setA_ne _ _ _ _ (fun hc => hnt hc.symm)]
    · simp [hid]

theorem foldl_removeIdStep_sublist (id : String) (keys : List String)
    (st : CantoTags) (t : String) :
    ((keys.foldl (CantoTags.removeIdStep id) st).get_tag t).Sublist
      (st.get_tag t) := by
  induction keys generalizing st with
  | nil => exact List.Sublist.refl _
  | cons k ks ih =>
      refine List.Sublist.trans (ih (CantoTags.removeIdStep id st k)) ?_
      rcases removeIdStep_get_tag id st k t with h | h
      · rw [h]
      · rw [h]
        exact List.erase_sublist _ _

theorem remove_id_sublist (s : CantoTags) (id t : String) :
    ((s.remove_id id).get_tag t).Sublist (s.get_tag t) :=
  foldl_removeIdStep_sublist id _ s t

/-- Item sequences after one mutation are sublists of the previous
sequence with at most the operation's id appended at the end. -/
theorem applyOp_sublist (s : CantoTags) (op : TagOp) (t : String) :
    ((applyOp s op).get_tag t).Sublist (s.get_tag t ++ [op.opId]) := by
  cases op with
  | add i n =>
      rcases add_tag_relIns s i n t with h | ⟨_, h⟩
      · rw [applyOp] at *
        rw [h]
        exact List.sublist_append_left _ _
      · rw [applyOp] at *
        rw [h]
        exact List.Sublist.refl _
  | removeTag i n =>
      rcases remove_tag_get_tag s i n t with h | h
      · rw [applyOp, h]
        exact List.sublist_append_left _ _
      · rw [applyOp, h]
        exact List.Sublist.trans (List.erase_sublist _ _)
          (List.sublist_append_left _ _)
  | removeId i =>
      exact List.Sublist.trans (remove_id_sublist s i t)
        (List.sublist_append_left _ _)

/-- All item sequences of a registry state are duplicate free. -/
def TagsNodup (s : CantoTags) : Prop :=
  ∀ t, (s.get_tag t).Nodup

theorem applyOp_nodup (s : CantoTags) (op : TagOp) (h : TagsNodup s) :
    TagsNodup (applyOp s op) := by
  intro t
  cases op with
  | add i n =>
      rcases add_tag_relIns s i n t with he | ⟨hni, he⟩
      · rw [applyOp, he]; exact h t
      · rw [applyOp, he]
        simp [List.nodup_append, h t, hni]
  | removeTag i n =>
      rcases remove_tag_get_tag s i n t with he | he
      · rw [applyOp, he]; exact h t
      · rw [applyOp, he]
        exact (h t).erase i
  | removeId i =>
      exact List.Nodup.sublist (remove_id_sublist s i t) (h t)

theorem foldl_applyOp_nodup (ops : List TagOp) (s : CantoTags)
    (h : TagsNodup s) : TagsNodup (ops.foldl applyOp s) := by
  induction ops generalizing s with
  | nil => exact h
  | cons op rest ih => exact ih (applyOp s op) (applyOp_nodup s op h)

theorem initTags_nodup (extra : List (String × List String)) :
    TagsNodup (initTags extra) := by
  intro t
  simp [initTags, CantoTags.get_tag, lookupA]

/-- Claim C1: over any sequence of add_tag, remove_tag and remove_id
operations from a fresh registry, every tag's item sequence contains
each id at most once; moreover every single operation maps each tag's
sequence to a sublist of the previous sequence with at most the
operation's id appended at the end, so the ids currently present stay
in first-insertion order and no reordering ever occurs. -/
theorem tag_sequences_nodup_and_append_order
    (extra : List (String × List String)) (ops : List TagOp) (t : String) :
    ((runOps extra ops).get_tag t).Nodup ∧
    ∀ (s : CantoTags) (op : TagOp),
      ((applyOp s op).get_tag t).Sublist (s.get_tag t ++ [op.opId]) := by
  constructor
  · exact foldl_applyOp_nodup ops (initTags extra) (initTags_nodup extra) t
  · intro s op
    exact applyOp_sublist s op t

/-! ## Dirty-set lemmas (claim C2) -/

theorem changed_tags_tag_changed_nodup (s : CantoTags) (tg : String)
    (h : s.changed_tags.Nodup) : (s.tag_changed tg).changed_tags.Nodup := by
  unfold CantoTags.tag_changed
  by_cases hm : tg ∈ s.changed_tags
  · simpa [hm]
  · simp [hm, List.nodup_append, h]

theorem changed_tags_addOne_nodup (id : String)
    (acc : CantoTags × List HookCall) (n : String)
    (h : acc.1.changed_tags.Nodup) :
    ((CantoTags.addOne id acc n).1).changed_tags.Nodup := by
  obtain ⟨s, evs⟩ := acc
  rcases hh : lookupA s.tags n with _ | l
  · have hn : lookupA (s.tags ++ [(n, [])]) n = some [] := by
      rw [lookupA_append, hh]
      simp [lookupA_cons]
    simp only [CantoTags.addOne, hh, hn, List.not_mem_nil, if_false]
    exact changed_tags_tag_changed_nodup _ n h
  · by_cases hid : id ∈ l
    · simpa [CantoTags.addOne, hh, hid]
    · simp only [CantoTags.addOne, hh, hid, if_false]
      exact changed_tags_tag_changed_nodup _ n h

theorem changed_tags_foldl_addOne_nodup (id : String) (names : List String)
    (acc : CantoTags × List HookCall) (h : acc.1.changed_tags.Nodup) :
    ((names.foldl (CantoTags.addOne id) acc).1).changed_tags.Nodup := by
  induction names generalizing acc with
  | nil => exact h
  | cons n ns ih =>
      exact ih (CantoTags.addOne id acc n)
        (changed_tags_addOne_nodup id acc n h)

theorem changed_tags_remove_tag_nodup (s : CantoTags) (id name : String)
    (h : s.changed_tags.Nodup) : (s.remove_tag id name).changed_tags.Nodup := by
  unfold CantoTags.remove_tag
  rcases hh : lookupA s.tags name with _ | l
  · exact h
  · by_cases hid : id ∈ l
    · simp only [if_pos hid]
      exact changed_tags_tag_changed_nodup _ name h
    · simpa [hid]

theorem changed_tags_removeIdStep_nodup (id : String) (st : CantoTags)
    (tg : String) (h : st.changed_tags.Nodup) :
    (CantoTags.removeIdStep id st tg).changed_tags.Nodup := by
  unfold CantoTags.removeIdStep
  rcases hh : lookupA st.tags tg with _ | l
  · exact h
  · by_cases hid : id ∈ l
    · simp only [if_pos hid]
      exact changed_tags_tag_changed_nodup _ tg h
    · simpa [hid]

theorem changed_tags_applyOp_nodup (s : CantoTags) (op : TagOp)
    (h : s.changed_tags.Nodup) : (applyOp s op).changed_tags.Nodup := by
  cases op with
  | add i n => exact changed_tags_foldl_addOne_nodup i _ (s, []) h
  | removeTag i n => exact changed_tags_remove_tag_nodup s i n h
  | removeId i =>
      rw [applyOp, CantoTags.remove_id]
      generalize (s.tags.map Prod.fst) = keys
      induction keys generalizing s with
      | nil => exact h
      | cons k ks ih =>
          exact ih (CantoTags.removeIdStep i s k)
            (changed_tags_removeIdStep_nodup i s k h)

theorem runOps_changed_tags_nodup (extra : List (String × List String))
    (ops : List TagOp) : (runOps extra ops).changed_tags.Nodup := by
  rw [runOps]
  have h0 : (initTags extra).changed_tags.Nodup := List.nodup_nil
  generalize hs : initTags extra = s0 at h0
  clear hs
  induction ops generalizing s0 with
  | nil => exact h0
  | cons op rest ih =>
      exact ih (applyOp s0 op) (changed_tags_applyOp_nodup s0 op h0)

theorem daemonTagChange_injective :
    Function.Injective HookCall.daemonTagChange := by
  intro a b h
  cases h
  rfl

/-- Claim C2: once a tag has been marked dirty by any number of
mutations in the current batch, the flush performed by do_tag_changes
publishes exactly one tag-change hook call for that tag, and the dirty
set is empty immediately after the flush. -/
theorem do_tag_changes_single_event (extra : List (String × List String))
    (ops : List TagOp) (t : String)
    (h : t ∈ (runOps extra ops).changed_tags) :
    ((runOps extra ops).do_tag_changes).2.count (HookCall.daemonTagChange t) = 1 ∧
    ((runOps extra ops).do_tag_changes).1.changed_tags = [] := by
  constructor
  · simp only [CantoTags.do_tag_changes]
    rw [List.count_map_of_injective _ _ daemonTagChange_injective]
    exact List.count_eq_one_of_mem (runOps_changed_tags_nodup extra ops) h
  · rfl

theorem do_tag_changes_single_event_witness :
    "t" ∈ (runOps [] [TagOp.add "i1" "t", TagOp.add "i2" "t"]).changed_tags ∧
    (((runOps [] [TagOp.add "i1" "t", TagOp.add "i2" "t"]).do_tag_changes).2.count
        (HookCall.daemonTagChange "t") = 1 ∧
     ((runOps [] [TagOp.add "i1" "t", TagOp.add "i2" "t"]).do_tag_changes).1.changed_tags
        = []) :=
  ⟨by decide, do_tag_changes_single_event [] _ "t" (by decide)⟩

/-! ## add_tag as a no-op (claim C10) -/

theorem addOne_noop (id : String) (acc : CantoTags × List HookCall)
    (n : String) (h : id ∈ acc.1.get_tag n) :
    CantoTags.addOne id acc n = acc := by
  obtain ⟨s, evs⟩ := acc
  rcases hh : lookupA s.tags n with _ | l
  · exfalso
    have : s.get_tag n = [] := by simp [CantoTags.get_tag, hh]
    rw [this] at h
    exact List.not_mem_nil id h
  · have hid : id ∈ l := by
      have : s.get_tag n = l := by simp [CantoTags.get_tag, hh]
      rwa [this] at h
    simp [CantoTags.addOne, hh, hid]

theorem foldl_addOne_noop (id : String) (names : List String)
    (s : CantoTags) (evs : List HookCall)
    (h : ∀ n ∈ names, id ∈ s.get_tag n) :
    names.foldl (CantoTags.addOne id) (s, evs) = (s, evs) := by
  induction names with
  | nil => rfl
  | cons n ns ih =>
      rw [List.foldl_cons, addOne_noop id (s, evs) n (h n (by simp))]
      exact ih (fun m hm => h m (by simp [hm]))

/-- Claim C10: when the id is already present in the base tag and in
every alias tag it resolves to, add_tag changes nothing: the registry
state (tags, dirty set, extra tags) is exactly the one before the call
and no hook call of any kind is published. -/
theorem add_tag_existing_noop (s : CantoTags) (id name : String)
    (h : ∀ n ∈ name :: (lookupA s.extra_tags name).getD [],
           id ∈ s.get_tag n) :
    s.add_tag id name = (s, []) := by
  unfold CantoTags.add_tag
  exact foldl_addOne_noop id _ s [] h

theorem add_tag_existing_noop_witness :
    (∀ n ∈ "a" :: (lookupA
        (CantoTags.mk [("a", ["i"]), ("c", ["i"])] [] [("a", ["c"])]).extra_tags
        "a").getD [],
       "i" ∈ (CantoTags.mk [("a", ["i"]), ("c", ["i"])] [] [("a", ["c"])]).get_tag n) ∧
    (CantoTags.mk [("a", ["i"]), ("c", ["i"])] [] [("a", ["c"])]).add_tag "i" "a"
      = (CantoTags.mk [("a", ["i"]), ("c", ["i"])] [] [("a", ["c"])], []) :=
  ⟨by decide, add_tag_existing_noop _ "i" "a" (by decide)⟩

/-! ## Protection registry

Modelled from the spec: protect.py is not in the verified tree. Per the
spec, `protect(key, ids)` adds ids under `key = (owner, reason)`,
creating the entry if absent; `unprotect(key)` removes the entire
entry; `unprotect_one(key, id)` removes a single id; `protected(id)`
is true iff any entry anywhere contains the id. Owners (sockets) are
modelled as naturals. -/

abbrev ProtKey := Nat × String

abbrev Prot := List (ProtKey × List String)

/-- Modelled from the spec: protect.py `protect(key, ids)`. -/
def Protection.protect (p : Prot) (k : ProtKey) (ids : List String) : Prot :=
  match lookupA p k with
  | some old => setA p k (old ++ ids)
  | none => p ++ [(k, ids)]

/-- Modelled from the spec: protect.py `unprotect(key)`. -/
def Protection.unprotect (p : Prot) (k : ProtKey) : Prot :=
  p.filter (fun e => e.1 ≠ k)

/-- Modelled from the spec: protect.py `unprotect_one(key, id)`. -/
def Protection.unprotect_one (p : Prot) (k : ProtKey) (id : String) : Prot :=
  match lookupA p k with
  | some l => setA p k (l.erase id)
  | none => p

/-- Modelled from the spec: protect.py `protected(id)`. -/
def Protection.isProtected (p : Prot) (id : String) : Bool :=
  p.any (fun e => id ∈ e.2)

/-- The ids currently held under one protection key. -/
def protIds (p : Prot) (k : ProtKey) : List String :=
  (lookupA p k).getD []

/-! ## Feeds and the dead-feed check (canto_backend.py) -/

/-- Modelled from the spec: feed.py is not in the verified tree; a feed
item is referenced through its `"id"` attribute in check_dead_feeds. -/
structure FeedItem where
  id : String
  deriving DecidableEq

/-- Modelled from the spec: feed.py feed objects, reduced to the URL
and the item list that check_dead_feeds reads. -/
structure Feed where
  URL : String
  items : List FeedItem
  deriving DecidableEq

/-- The inner `for item in feed.items ... break` loop of
`CantoBackend.check_dead_feeds`: the break fires iff some item of the
feed is protected by anyone. -/
def feedStillCommitted (p : Prot) (f : Feed) : Bool :=
  f.items.any (fun it => Protection.isProtected p it.id)

/-- canto_backend.py `CantoBackend.check_dead_feeds`: each dead feed
with a protected item is kept (first component); each dead feed whose
items are all unprotected is handed to `allfeeds.really_dead`, which
per the spec discards it permanently (second component). -/
def check_dead_feeds (p : Prot) (dead : List Feed) : List Feed × List Feed :=
  dead.partition (feedStillCommitted p)

/-! ## Watch registry and hook subscriptions (canto_backend.py) -/

structure Watches where
  new_tags : List Nat
  del_tags : List Nat
  config : List Nat
  tags : List (String × List Nat)
  deriving DecidableEq

inductive BackendHandler where
  | onNewTag
  | onDelTag
  | onConfigChange
  | onTagChange
  | onKillSocket
  deriving DecidableEq

/-- canto_backend.py `CantoBackend.setup_hooks`: the subscriptions the
dispatcher registers on the hook bus, with the exact hook-name string
literals of the source. -/
def setup_hooks : List (String × BackendHandler) :=
  [("new_tag", BackendHandler.onNewTag),
   ("del_tag", BackendHandler.onDelTag),
   ("config_change", BackendHandler.onConfigChange),
   ("tag_change", BackendHandler.onTagChange),
   ("kill_socket", BackendHandler.onKillSocket)]

/-- Modelled from the spec: hooks.py is not in the verified tree. Per
the spec, the hook bus invokes exactly the callbacks subscribed under
the published event name, synchronously and in subscription order. -/
def hookHandlersFor (regs : List (String × BackendHandler))
    (eventName : String) : List BackendHandler :=
  (regs.filter (fun e => e.1 = eventName)).map Prod.snd

/-- canto_backend.py `CantoBackend.on_new_tag`: push a NEWTAGS message
to every socket on the new-tag watch list. -/
def CantoBackend.on_new_tag (w : Watches) (tags : List String) :
    List (Nat × String × List String) :=
  w.new_tags.map (fun sock => (sock, "NEWTAGS", tags))

/-- Synchronous delivery of one published hook call through the bus to
the dispatcher: every handler subscribed under the published name runs;
among the modelled handlers, on_new_tag is the one that produces
NEWTAGS pushes. -/
def backendDeliver (w : Watches) (ev : HookCall) :
    List (Nat × String × List String) :=
  (hookHandlersFor setup_hooks ev.hookName).foldl
    (fun msgs h =>
      msgs ++ (match h, ev with
        | BackendHandler.onNewTag, HookCall.daemonNewTag ts =>
            CantoBackend.on_new_tag w ts
        | _, _ => []))
    []

/-- An add_tag call followed by synchronous bus delivery of every hook
call it published: the NEWTAGS messages that actually reach sockets. -/
def addTagAndNotify (w : Watches) (s : CantoTags) (id name : String) :
    CantoTags × List (Nat × String × List String) :=
  let r := s.add_tag id name
  (r.1, r.2.foldl (fun msgs ev => msgs ++ backendDeliver w ev) [])

/-! ## cmd_items (canto_backend.py) -/

/-- canto_backend.py `CantoBackend.apply_transforms`: apply the
configured global transform when one is set. -/
def apply_transforms (global_transform : Option (List String → List String))
    (tag : List String) : List String :=
  match global_transform with
  | some f => f tag
  | none => tag

/-- One iteration of the `for tag in args` loop of
`CantoBackend.cmd_items`: store the transformed sequence in the
response dict and auto-protect exactly those ids under
`(socket, "auto")`. -/
def cmdItemsStep (gt : Option (List String → List String))
    (alltags : CantoTags) (socket : Nat)
    (acc : Prot × List (String × List String)) (tag : String) :
    Prot × List (String × List String) :=
  let v := apply_transforms gt (alltags.get_tag tag)
  (Protection.protect acc.1 (socket, "auto") v, dinsert acc.2 tag v)

/-- canto_backend.py `CantoBackend.cmd_items`: the protection state and
the response dict at the moment `self.write(socket, "ITEMS", response)`
runs, which is after the whole loop. -/
def cmd_items (gt : Option (List String → List String))
    (alltags : CantoTags) (p : Prot) (socket : Nat) (args : List String) :
    Prot × List (String × List String) :=
  args.foldl (cmdItemsStep gt alltags socket) (p, [])

/-! ## on_kill_socket (canto_backend.py) -/

/-- The result of `while socket in l: l.remove(socket)`: every
occurrence of the socket is removed, other elements keep their order. -/
def removeAllOcc {α : Type} [DecidableEq α] (s : α) : List α → List α
  | [] => []
  | x :: xs => if x = s then removeAllOcc s xs else x :: removeAllOcc s xs

/-- canto_backend.py `CantoBackend.on_kill_socket`: purge the socket
from the config, new-tag and del-tag watch lists and from every per-tag
watch list, revoke the socket's auto protection entry, then run the
dead-feed check against the reduced protection state. -/
def CantoBackend.on_kill_socket (w : Watches) (p : Prot) (dead : List Feed)
    (socket : Nat) : Watches × Prot × (List Feed × List Feed) :=
  let w1 := { w with config := removeAllOcc socket w.config }
  let w2 := { w1 with new_tags := removeAllOcc socket w1.new_tags }
  let w3 := { w2 with del_tags := removeAllOcc socket w2.del_tags }
  let w4 := { w3 with tags := w3.tags.map (fun e => (e.1, removeAllOcc socket e.2)) }
  let p1 := Protection.unprotect p (socket, "auto")
  (w4, p1, check_dead_feeds p1 dead)

example :
    (addTagAndNotify (Watches.mk [0] [] [] []) (initTags []) "id1" "feed1").2
      = [] := by decide

example :
    CantoBackend.on_new_tag (Watches.mk [0, 1] [] [] []) ["feed1"]
      = [(0, "NEWTAGS", ["feed1"]), (1, "NEWTAGS", ["feed1"])] := by decide

example :
    (cmd_items none (CantoTags.mk [("t1", ["i1"])] [] []) [] 0 ["t1"]).1
      = [((0, "auto"), ["i1"])] := by decide

example :
    check_dead_feeds [] [Feed.mk "u" [FeedItem.mk "a"]]
      = ([], [Feed.mk "u" [FeedItem.mk "a"]]) := by decide

/-! ## Configuration interface and cmd_setconfigs / cmd_configs

Modelled from the spec: config.py is not in the verified tree. Per the
spec the core consumes `get(section, setting, default)` (which can fail
on a bad path), `get_section(name)`, `get_sections()`, `has_section`,
`set(section, setting, value)`, `remove_section(section)` and
`write()`. Settings and values are modelled as strings. -/

structure CantoConfig where
  sections : List (String × List (String × String))
  deriving DecidableEq

/-- Modelled from the spec: config.py `set(section, setting, value)`:
store the value under the setting of the section, creating the section
when absent. -/
def CantoConfig.set (c : CantoConfig) (sec setting value : String) :
    CantoConfig :=
  match lookupA c.sections sec with
  | some m => { sections := setA c.sections sec (dinsert m setting value) }
  | none => { sections := c.sections ++ [(sec, [(setting, value)])] }

/-- Modelled from the spec: config.py `has_section`. -/
def CantoConfig.has_section (c : CantoConfig) (sec : String) : Bool :=
  (lookupA c.sections sec).isSome

/-- Modelled from the spec: config.py `remove_section`. -/
def CantoConfig.remove_section (c : CantoConfig) (sec : String) : CantoConfig :=
  { sections := c.sections.filter (fun e => e.1 ≠ sec) }

/-- One iteration of the `for setting in args[section]` loop of
`CantoBackend.cmd_setconfigs`: apply the setting through `conf.set` and
run `changes.update({section: {setting: value}})`, which rebinds the
whole section key of the changes dict to a one-pair map. -/
def setconfigsSettingStep (sec : String)
    (acc : CantoConfig × List (String × List (String × String)))
    (sp : String × String) :
    CantoConfig × List (String × List (String × String)) :=
  (acc.1.set sec sp.1 sp.2, dinsert acc.2 sec [(sp.1, sp.2)])

/-- One iteration of the `for section in args.keys()` loop of
`CantoBackend.cmd_setconfigs`: an empty value set for an existing
section removes the section (and adds nothing to the changes dict);
otherwise every setting of the section is applied in order. -/
def setconfigsSectionStep
    (acc : CantoConfig × List (String × List (String × String)))
    (secPair : String × List (String × String)) :
    CantoConfig × List (String × List (String × String)) :=
  if secPair.2 = [] ∧ acc.1.has_section secPair.1 = true then
    (acc.1.remove_section secPair.1, acc.2)
  else
    secPair.2.foldl (setconfigsSettingStep secPair.1) acc

/-- canto_backend.py `CantoBackend.cmd_setconfigs`: the final
configuration (persisted by `conf.write()`) and the list of published
`config_change` payloads; the source publishes exactly one call,
carrying the accumulated changes dict. -/
def cmd_setconfigs (c : CantoConfig)
    (args : List (String × List (String × String))) :
    CantoConfig × List (List (String × List (String × String))) :=
  let r := args.foldl setconfigsSectionStep (c, [])
  (r.1, [r.2])

/-- Modelled from the spec: format.py escsplit is not in the verified
tree; per the spec, option paths have the form `section` or
`section.setting`, so the path is split at the first dot and has no
setting component when it contains no dot. -/
def escsplitChars : List Char → List Char × Option (List Char)
  | [] => ([], none)
  | c :: cs =>
      if c = '.' then ([], some cs)
      else
        match escsplitChars cs with
        | (pre, rest) => (c :: pre, rest)

def escsplit (opt : String) : String × Option String :=
  match escsplitChars opt.data with
  | (_, none) => (opt, none)
  | (pre, some suf) => (String.mk pre, some (String.mk suf))

/-- One iteration of the `for opt in args` loop of
`CantoBackend.cmd_configs`. A path without a setting component is
answered through `get_section`. A path with one goes through
`conf.get` inside try/except: a failing resolution (modelled by
`go` returning none) is logged and contributes nothing, a successful
value is merged into the section's map of the result dict. -/
def configsStep (gs : String → List (String × String))
    (go : String → String → Option String)
    (ret : List (String × List (String × String))) (opt : String) :
    List (String × List (String × String)) :=
  let sp := escsplit opt
  if sp.2.getD "" = "" then dinsert ret opt (gs opt)
  else
    match go sp.1 (sp.2.getD "") with
    | some val =>
        (match lookupA ret sp.1 with
         | some m => setA ret sp.1 (dinsert m (sp.2.getD "") val)
         | none => ret ++ [(sp.1, [(sp.2.getD "", val)])])
    | none => ret

/-- The result dict built by `CantoBackend.cmd_configs` for a non-empty
argument list. -/
def cmd_configs_ret (gs : String → List (String × String))
    (go : String → String → Option String) (args : List String) :
    List (String × List (String × String)) :=
  args.foldl (configsStep gs go) []

/-- canto_backend.py `CantoBackend.cmd_configs`: the complete handler;
an empty argument list is answered with `get_sections()`, and exactly
one CONFIGS response is written in every case. -/
def cmd_configs (gs : String → List (String × String))
    (gsections : List (String × List (String × String)))
    (go : String → String → Option String) (socket : Nat)
    (args : List String) :
    List (Nat × String × List (String × List (String × String))) :=
  let ret := if args = [] then gsections else cmd_configs_ret gs go args
  [(socket, "CONFIGS", ret)]

/-- A path resolves iff it is a bare section path (answered through the
total `get_section`) or `conf.get` succeeds on it. -/
def optResolvesB (go : String → String → Option String) (opt : String) :
    Bool :=
  let sp := escsplit opt
  if sp.2.getD "" = "" then true else (go sp.1 (sp.2.getD "")).isSome

example :
    (cmd_setconfigs (CantoConfig.mk []) [("sec", [("x", "1"), ("y", "2")])]).2
      = [[("sec", [("y", "2")])]] := by decide

example :
    (cmd_setconfigs (CantoConfig.mk []) [("sec", [("x", "1"), ("y", "2")])]).1.sections
      = [("sec", [("x", "1"), ("y", "2")])] := by decide

example : escsplit "a.x" = ("a", some "x") := by decide

example : escsplit "plain" = ("plain", none) := by decide

example :
    cmd_configs_ret (fun _ => []) (fun s t => if s = "a" ∧ t = "x" then some "v" else none)
      ["a.x", "b.y"] = [("a", [("x", "v")])] := by decide

/-! ## Storage layer (canto_next/storage.py) -/

inductive StorageEvent where
  | sync
  | shelfClosed
  | reorganized
  | warnReorgFailed (msg : String)
  | debugTrimmed
  | dbClose (filename : String)
  deriving DecidableEq

structure CantoShelf where
  filename : String
  shelf : Option Unit
  deriving DecidableEq

/-- storage.py `CantoShelf._reorganize`: the whole dbm reopen and
reorganize pass runs inside try/except, so the function is total:
a raised exception (modelled by `Except.error`) produces warning log
events, success produces the reorganize and the debug log event. -/
def CantoShelf.reorganizePass (outcome : Except String Unit) :
    List StorageEvent :=
  match outcome with
  | Except.ok _ => [StorageEvent.reorganized, StorageEvent.debugTrimmed]
  | Except.error e => [StorageEvent.warnReorgFailed e]

/-- storage.py `CantoShelf.close`: sync the shelf, close it, run the
reorganize pass when the backing db is dbm.gnu (`isGnu`), clear the
shelf handle and publish `daemon_db_close` with the filename. The
event list is the observable trace in source order. -/
def CantoShelf.close (s : CantoShelf) (isGnu : Bool)
    (reorgOutcome : Except String Unit) : CantoShelf × List StorageEvent :=
  let evs := [StorageEvent.sync, StorageEvent.shelfClosed]
  let evs := evs ++ (if isGnu then CantoShelf.reorganizePass reorgOutcome else [])
  ({ s with shelf := none }, evs ++ [StorageEvent.dbClose s.filename])

/-! ## Claim theorems C3, C5, C6, C9 -/

/-- Claim C3 is contradicted by the code: add_tag creating the tag
"feed1" publishes its event under the hook name "daemon_new_tag", yet
setup_hooks subscribes on_new_tag under the name "new_tag", so the bus
finds no handler for the published name and socket 0 on the new-tag
watch list receives no NEWTAGS message. -/
theorem new_tag_event_not_delivered :
    ((initTags []).add_tag "id1" "feed1").2 = [HookCall.daemonNewTag ["feed1"]] ∧
    HookCall.hookName (HookCall.daemonNewTag ["feed1"]) = "daemon_new_tag" ∧
    hookHandlersFor setup_hooks "daemon_new_tag" = [] ∧
    (setup_hooks.map Prod.fst).contains "daemon_new_tag" = false ∧
    (addTagAndNotify (Watches.mk [0] [] [] []) (initTags []) "id1" "feed1").2 = [] := by
  refine ⟨by decide, rfl, by decide, by decide, by decide⟩

/-- Claim C5: one run of the dead-feed check discards a dead feed
exactly when none of its items is protected by any protection entry,
and keeps it exactly when at least one item is protected. -/
theorem check_dead_feeds_discard_iff (p : Prot) (dead : List Feed) (f : Feed)
    (h : f ∈ dead) :
    (f ∈ (check_dead_feeds p dead).2 ↔
       ∀ it ∈ f.items, Protection.isProtected p it.id = false) ∧
    (f ∈ (check_dead_feeds p dead).1 ↔
       ∃ it ∈ f.items, Protection.isProtected p it.id = true) := by
  constructor
  · rw [check_dead_feeds, List.partition_eq_filter_filter, List.mem_filter]
    simp [h, feedStillCommitted, List.any_eq_true]
  · rw [check_dead_feeds, List.partition_eq_filter_filter, List.mem_filter]
    simp [h, feedStillCommitted, List.any_eq_true]

theorem check_dead_feeds_discard_iff_witness :
    Feed.mk "u" [FeedItem.mk "a"] ∈ [Feed.mk "u" [FeedItem.mk "a"]] ∧
    ((Feed.mk "u" [FeedItem.mk "a"] ∈
        (check_dead_feeds [] [Feed.mk "u" [FeedItem.mk "a"]]).2 ↔
       ∀ it ∈ (Feed.mk "u" [FeedItem.mk "a"]).items,
         Protection.isProtected [] it.id = false) ∧
     (Feed.mk "u" [FeedItem.mk "a"] ∈
        (check_dead_feeds [] [Feed.mk "u" [FeedItem.mk "a"]]).1 ↔
       ∃ it ∈ (Feed.mk "u" [FeedItem.mk "a"]).items,
         Protection.isProtected [] it.id = true)) :=
  ⟨by decide,
   check_dead_feeds_discard_iff [] [Feed.mk "u" [FeedItem.mk "a"]]
     (Feed.mk "u" [FeedItem.mk "a"]) (by decide)⟩

theorem not_mem_removeAllOcc {α : Type} [DecidableEq α] (s : α)
    (l : List α) : s ∉ removeAllOcc s l := by
  induction l with
  | nil => simp [removeAllOcc]
  | cons x xs ih =>
      by_cases h : x = s
      · simpa [removeAllOcc, h]
      · simp only [removeAllOcc, if_neg h, List.mem_cons]
        push_neg
        exact ⟨fun hc => h hc.symm, ih⟩

theorem lookupA_unprotect (p : Prot) (k : ProtKey) :
    lookupA (Protection.unprotect p k) k = none := by
  unfold Protection.unprotect
  induction p with
  | nil => rfl
  | cons e rest ih =>
      obtain ⟨k', v⟩ := e
      by_cases h : k' = k
      · subst h
        simpa [List.filter_cons] using ih
      · simp only [decide_not] at ih
        simp [List.filter_cons, h, lookupA_cons, ih]

/-- Claim C6: after the disconnect handler runs for a socket, no matter
what the watch registry held before (including repeated occurrences),
the socket is gone from the config, new-tag and del-tag watch lists and
from every per-tag watch list, and its (socket, "auto") protection
entry is gone from the protection registry. -/
theorem on_kill_socket_clean (w : Watches) (p : Prot) (dead : List Feed)
    (socket : Nat) :
    socket ∉ (CantoBackend.on_kill_socket w p dead socket).1.config ∧
    socket ∉ (CantoBackend.on_kill_socket w p dead socket).1.new_tags ∧
    socket ∉ (CantoBackend.on_kill_socket w p dead socket).1.del_tags ∧
    (∀ tg l, (tg, l) ∈ (CantoBackend.on_kill_socket w p dead socket).1.tags →
       socket ∉ l) ∧
    lookupA (CantoBackend.on_kill_socket w p dead socket).2.1 (socket, "auto")
      = none := by
  refine ⟨?_, ?_, ?_, ?_, ?_⟩
  · exact not_mem_removeAllOcc socket w.config
  · exact not_mem_removeAllOcc socket w.new_tags
  · exact not_mem_removeAllOcc socket w.del_tags
  · intro tg l hmem
    simp only [CantoBackend.on_kill_socket, List.mem_map] at hmem
    obtain ⟨e, _, he⟩ := hmem
    have : l = removeAllOcc socket e.2 := (Prod.mk.injEq _ _ _ _ ▸ he).2.symm
    rw [this]
    exact not_mem_removeAllOcc socket e.2
  · exact lookupA_unprotect p (socket, "auto")

theorem on_kill_socket_clean_witness :
    0 ∉ (CantoBackend.on_kill_socket
          (Watches.mk [0, 1, 0] [0] [2, 0] [("t", [0, 0, 3])])
          [((0, "auto"), ["i1"])] [] 0).1.config ∧
    0 ∉ (CantoBackend.on_kill_socket
          (Watches.mk [0, 1, 0] [0] [2, 0] [("t", [0, 0, 3])])
          [((0, "auto"), ["i1"])] [] 0).1.new_tags ∧
    0 ∉ (CantoBackend.on_kill_socket
          (Watches.mk [0, 1, 0] [0] [2, 0] [("t", [0, 0, 3])])
          [((0, "auto"), ["i1"])] [] 0).1.del_tags ∧
    (∀ tg l, (tg, l) ∈ (CantoBackend.on_kill_socket
          (Watches.mk [0, 1, 0] [0] [2, 0] [("t", [0, 0, 3])])
          [((0, "auto"), ["i1"])] [] 0).1.tags → 0 ∉ l) ∧
    lookupA (CantoBackend.on_kill_socket
          (Watches.mk [0, 1, 0] [0] [2, 0] [("t", [0, 0, 3])])
          [((0, "auto"), ["i1"])] [] 0).2.1 (0, "auto") = none :=
  on_kill_socket_clean (Watches.mk [0, 1, 0] [0] [2, 0] [("t", [0, 0, 3])])
    [((0, "auto"), ["i1"])] [] 0

/-- Claim C9: close always syncs and closes the shelf first, always
ends with the db-close event after clearing the shelf handle, and a
failing reorganize pass is reduced to warning log output that leaves
the rest of the shutdown sequence intact. -/
theorem close_reorganize_failure_contained (s : CantoShelf) (isGnu : Bool)
    (outcome : Except String Unit) :
    (s.close isGnu outcome).1.shelf = none ∧
    (s.close isGnu outcome).2.take 2
      = [StorageEvent.sync, StorageEvent.shelfClosed] ∧
    (s.close isGnu outcome).2.getLast?
      = some (StorageEvent.dbClose s.filename) ∧
    (∀ e, outcome = Except.error e → isGnu = true →
       StorageEvent.warnReorgFailed e ∈ (s.close isGnu outcome).2) := by
  cases isGnu <;> rcases outcome with e | u <;>
    simp [CantoShelf.close, CantoShelf.reorganizePass]

theorem close_reorganize_failure_contained_witness :
    ((CantoShelf.mk "feeds" (some ())).close true (Except.error "boom")).1.shelf
        = none ∧
    StorageEvent.warnReorgFailed "boom" ∈
      ((CantoShelf.mk "feeds" (some ())).close true (Except.error "boom")).2 :=
  ⟨(close_reorganize_failure_contained (CantoShelf.mk "feeds" (some ()))
      true (Except.error "boom")).1,
   (close_reorganize_failure_contained (CantoShelf.mk "feeds" (some ()))
      true (Except.error "boom")).2.2.2 "boom" rfl rfl⟩

/-! ## Claim C4: cmd_items auto-protection -/

theorem protIds_protect_mono (p : Prot) (k : ProtKey) (ids : List String)
    (x : String) (h : x ∈ protIds p k) :
    x ∈ protIds (Protection.protect p k ids) k := by
  rcases hh : lookupA p k with _ | old
  · exfalso
    simp only [protIds, hh, Option.getD_none] at h
    exact List.not_mem_nil x h
  · simp only [protIds, hh, Option.getD_some] at h
    simp only [Protection.protect, hh, protIds]
    rw [lookupA_setA_self, hh]
    simp [h]

theorem protIds_protect_adds (p : Prot) (k : ProtKey) (ids : List String)
    (x : String) (h : x ∈ ids) :
    x ∈ protIds (Protection.protect p k ids) k := by
  rcases hh : lookupA p k with _ | old
  · simp only [Protection.protect, hh, protIds]
    rw [lookupA_append, hh]
    simp [lookupA_cons, h]
  · simp only [Protection.protect, hh, protIds]
    rw [lookupA_setA_self, hh]
    simp [h]

theorem dinsert_mem {α β : Type} [DecidableEq α] (l : List (α × β)) (k : α)
    (v : β) (q : α × β) (h : q ∈ dinsert l k v) : q ∈ l ∨ q = (k, v) := by
  unfold dinsert at h
  rcases hh : lookupA l k with _ | old
  · rw [hh] at h
    rcases List.mem_append.mp h with h1 | h1
    · exact Or.inl h1
    · simp at h1
      exact Or.inr h1
  · rw [hh] at h
    unfold setA at h
    rcases List.mem_map.mp h with ⟨e, he, heq⟩
    by_cases hk : e.1 = k
    · rw [if_pos hk] at heq
      exact Or.inr heq.symm
    · rw [if_neg hk] at heq
      exact Or.inl (heq ▸ he)

theorem cmd_items_fold_protect (gt : Option (List String → List String))
    (alltags : CantoTags) (socket : Nat) (args : List String)
    (acc : Prot × List (String × List String))
    (hinv : ∀ tg ids, (tg, ids) ∈ acc.2 →
       ∀ x ∈ ids, x ∈ protIds acc.1 (socket, "auto")) :
    ∀ tg ids, (tg, ids) ∈ (args.foldl (cmdItemsStep gt alltags socket) acc).2 →
      ∀ x ∈ ids,
        x ∈ protIds (args.foldl (cmdItemsStep gt alltags socket) acc).1
              (socket, "auto") := by
  induction args generalizing acc with
  | nil => exact hinv
  | cons a rest ih =>
      rw [List.foldl_cons]
      apply ih
      intro tg ids hmem x hx
      simp only [cmdItemsStep] at hmem ⊢
      rcases dinsert_mem _ _ _ _ hmem with h1 | h1
      · exact protIds_protect_mono _ _ _ x (hinv tg ids h1 x hx)
      · have h3 : ids = apply_transforms gt (alltags.get_tag a) :=
          congrArg Prod.snd h1
        rw [h3] at hx
        exact protIds_protect_adds _ _ _ x hx

/-- Claim C4: every id contained in the response assembled by cmd_items
is, in the protection state that is current when the ITEMS response is
written, registered under the key (socket, "auto"). -/
theorem cmd_items_auto_protect (gt : Option (List String → List String))
    (alltags : CantoTags) (p : Prot) (socket : Nat) (args : List String)
    (tag : String) (ids : List String) (id : String)
    (h1 : (tag, ids) ∈ (cmd_items gt alltags p socket args).2)
    (h2 : id ∈ ids) :
    id ∈ protIds (cmd_items gt alltags p socket args).1 (socket, "auto") := by
  unfold cmd_items at h1 ⊢
  refine cmd_items_fold_protect gt alltags socket args (p, []) ?_ tag ids h1 id h2
  intro tg ids hmem
  simp at hmem

theorem cmd_items_auto_protect_witness :
    ("t1", ["i1"]) ∈
      (cmd_items none (CantoTags.mk [("t1", ["i1"])] [] []) [] 0 ["t1"]).2 ∧
    "i1" ∈ ["i1"] ∧
    "i1" ∈ protIds
      (cmd_items none (CantoTags.mk [("t1", ["i1"])] [] []) [] 0 ["t1"]).1
      (0, "auto") :=
  ⟨by decide, by decide,
   cmd_items_auto_protect none (CantoTags.mk [("t1", ["i1"])] [] []) [] 0
     ["t1"] "t1" ["i1"] "i1" (by decide) (by decide)⟩

/-! ## Claim C7: the config_change payload of cmd_setconfigs -/

theorem lookupA_dinsert_self {α β : Type} [DecidableEq α]
    (l : List (α × β)) (k : α) (v : β) :
    lookupA (dinsert l k v) k = some v := by
  rcases hh : lookupA l k with _ | old
  · simp only [dinsert, hh]
    rw [lookupA_append, hh]
    simp [lookupA_cons]
  · simp only [dinsert, hh]
    rw [lookupA_setA_self, hh]
    rfl

theorem lookupA_dinsert_ne {α β : Type} [DecidableEq α]
    (l : List (α × β)) (k : α) (v : β) (t : α) (h : t ≠ k) :
    lookupA (dinsert l k v) t = lookupA l t := by
  rcases hh : lookupA l k with _ | old
  · simp only [dinsert, hh]
    rw [lookupA_append]
    have hone : lookupA [(k, v)] t = none := by
      simp [lookupA_cons, lookupA, Ne.symm h]
    rcases h2 : lookupA l t with _ | w <;> simp [h2, hone]
  · simp only [dinsert, hh]
    exact lookupA_setA_ne l k t v h

theorem getLast?_isSome_of_ne_nil {α : Type} (l : List α) (h : l ≠ []) :
    ∃ p, l.getLast? = some p := by
  induction l with
  | nil => exact absurd rfl h
  | cons a rest ih =>
      cases rest with
      | nil => exact ⟨a, by simp⟩
      | cons b l2 =>
          obtain ⟨p, hp⟩ := ih (by simp)
          exact ⟨p, by rw [List.getLast?_cons_cons]; exact hp⟩

theorem setconfigs_inner_last (sec : String)
    (settings : List (String × String)) (p : String × String)
    (h : settings.getLast? = some p)
    (acc : CantoConfig × List (String × List (String × String))) :
    lookupA ((settings.foldl (setconfigsSettingStep sec) acc).2) sec
      = some [p] := by
  induction settings generalizing acc with
  | nil => simp at h
  | cons a rest ih =>
      obtain ⟨a1, a2⟩ := a
      cases rest with
      | nil =>
          rw [List.foldl_cons, List.foldl_nil]
          simp only [setconfigsSettingStep]
          rw [lookupA_dinsert_self]
          have : (a1, a2) = p := by simpa using h
          rw [← this]
      | cons b l2 =>
          rw [List.foldl_cons]
          apply ih
          rwa [List.getLast?_cons_cons] at h

theorem setconfigs_inner_preserve (sec2 : String)
    (settings : List (String × String))
    (acc : CantoConfig × List (String × List (String × String)))
    (sec : String) (h : sec ≠ sec2) :
    lookupA ((settings.foldl (setconfigsSettingStep sec2) acc).2) sec
      = lookupA acc.2 sec := by
  induction settings generalizing acc with
  | nil => rfl
  | cons a rest ih =>
      rw [List.foldl_cons, ih]
      simp only [setconfigsSettingStep]
      exact lookupA_dinsert_ne _ _ _ _ h

theorem setconfigs_section_preserve (e : String × List (String × String))
    (acc : CantoConfig × List (String × List (String × String)))
    (sec : String) (h : e.1 ≠ sec) :
    lookupA ((setconfigsSectionStep acc e).2) sec = lookupA acc.2 sec := by
  unfold setconfigsSectionStep
  split
  · rfl
  · exact setconfigs_inner_preserve e.1 e.2 acc sec (Ne.symm h)

theorem setconfigs_outer_preserve
    (l2 : List (String × List (String × String)))
    (acc : CantoConfig × List (String × List (String × String)))
    (sec : String) (h : ∀ e ∈ l2, e.1 ≠ sec) :
    lookupA ((l2.foldl setconfigsSectionStep acc).2) sec
      = lookupA acc.2 sec := by
  induction l2 generalizing acc with
  | nil => rfl
  | cons e rest ih =>
      rw [List.foldl_cons, ih _ (fun x hx => h x (List.mem_cons_of_mem e hx))]
      exact setconfigs_section_preserve e acc sec (h e (List.mem_cons_self e rest))

/-- Claim C7 fails on the code at a section with two applied settings:
both settings are applied to the configuration, but the published
config_change payload binds the section to a map holding only the last
applied pair, because changes.update rebinds the section key wholesale
on every iteration. -/
theorem cmd_setconfigs_payload_misses_pair :
    (cmd_setconfigs (CantoConfig.mk []) [("sec", [("x", "1"), ("y", "2")])]).1.sections
        = [("sec", [("x", "1"), ("y", "2")])] ∧
    (cmd_setconfigs (CantoConfig.mk []) [("sec", [("x", "1"), ("y", "2")])]).2
        = [[("sec", [("y", "2")])]] := by
  refine ⟨by decide, by decide⟩

/-- Claim C7 as amended: cmd_setconfigs publishes exactly one
config_change event, and its payload maps each section that had a
non-empty setting map applied to the singleton map holding the last
setting-value pair applied for that section, earlier pairs of the same
request being overwritten. -/
theorem cmd_setconfigs_payload_last_pair (c : CantoConfig)
    (args : List (String × List (String × String))) (sec : String)
    (settings : List (String × String))
    (hmem : (sec, settings) ∈ args) (hne : settings ≠ [])
    (hkeys : (args.map Prod.fst).Nodup) :
    ∃ chg p, (cmd_setconfigs c args).2 = [chg] ∧
      settings.getLast? = some p ∧ lookupA chg sec = some [p] := by
  obtain ⟨l1, l2, rfl⟩ := List.append_of_mem hmem
  obtain ⟨p, hp⟩ := getLast?_isSome_of_ne_nil settings hne
  refine ⟨((l1 ++ (sec, settings) :: l2).foldl setconfigsSectionStep (c, [])).2,
    p, rfl, hp, ?_⟩
  rw [List.foldl_append, List.foldl_cons]
  have hl2 : ∀ e ∈ l2, e.1 ≠ sec := by
    intro e he hc
    rw [List.map_append, List.map_cons] at hkeys
    rcases List.nodup_append.mp hkeys with ⟨_, h2, _⟩
    rcases List.nodup_cons.mp h2 with ⟨hnotin, _⟩
    have hmm : e.1 ∈ l2.map Prod.fst := List.mem_map_of_mem Prod.fst he
    rw [hc] at hmm
    exact hnotin hmm
  rw [setconfigs_outer_preserve l2 _ sec hl2]
  unfold setconfigsSectionStep
  rw [if_neg (fun hc => hne hc.1)]
  exact setconfigs_inner_last sec settings p hp _

theorem cmd_setconfigs_payload_last_pair_witness :
    ("sec", [("x", "1"), ("y", "2")]) ∈ [("sec", [("x", "1"), ("y", "2")])] ∧
    ([("x", "1"), ("y", "2")] : List (String × String)) ≠ [] ∧
    (([("sec", [("x", "1"), ("y", "2")])].map Prod.fst).Nodup) ∧
    (∃ chg p,
      (cmd_setconfigs (CantoConfig.mk []) [("sec", [("x", "1"), ("y", "2")])]).2
        = [chg] ∧
      ([("x", "1"), ("y", "2")] : List (String × String)).getLast? = some p ∧
      lookupA chg "sec" = some [p]) :=
  ⟨by decide, by decide, by decide,
   cmd_setconfigs_payload_last_pair (CantoConfig.mk [])
     [("sec", [("x", "1"), ("y", "2")])] "sec" [("x", "1"), ("y", "2")]
     (by decide) (by decide) (by decide)⟩

/-! ## Claim C8: per-path failure isolation in cmd_configs -/

theorem configsStep_noop (gs : String → List (String × String))
    (go : String → String → Option String)
    (ret : List (String × List (String × String))) (opt : String)
    (h : optResolvesB go opt = false) :
    configsStep gs go ret opt = ret := by
  simp only [optResolvesB] at h
  simp only [configsStep]
  by_cases hb : (escsplit opt).2.getD "" = ""
  · rw [if_pos hb] at h
    exact absurd h (by simp)
  · rw [if_neg hb] at h
    have hgo : go (escsplit opt).1 ((escsplit opt).2.getD "") = none := by
      rcases hgo2 : go (escsplit opt).1 ((escsplit opt).2.getD "") with _ | v
      · rfl
      · rw [hgo2] at h
        simp at h
    rw [if_neg hb, hgo]

theorem configs_foldl_filter (gs : String → List (String × String))
    (go : String → String → Option String) (args : List String)
    (acc : List (String × List (String × String))) :
    args.foldl (configsStep gs go) acc
      = (args.filter (optResolvesB go)).foldl (configsStep gs go) acc := by
  induction args generalizing acc with
  | nil => rfl
  | cons a rest ih =>
      cases hb : optResolvesB go a with
      | false =>
          rw [List.filter_cons_of_neg (by simp [hb]), List.foldl_cons,
            configsStep_noop gs go acc a hb]
          exact ih acc
      | true =>
          rw [List.filter_cons_of_pos hb, List.foldl_cons, List.foldl_cons]
          exact ih _

/-- Claim C8: for a non-empty path list, paths that fail to resolve
contribute nothing at all: the result dict equals the one computed from
the resolvable paths alone, every resolvable path being handled as
usual, and exactly one CONFIGS response is written. -/
theorem cmd_configs_failures_omitted (gs : String → List (String × String))
    (gsections : List (String × List (String × String)))
    (go : String → String → Option String) (socket : Nat)
    (args : List String) (h : args ≠ []) :
    cmd_configs gs gsections go socket args
      = [(socket, "CONFIGS",
          cmd_configs_ret gs go (args.filter (optResolvesB go)))] ∧
    cmd_configs_ret gs go args
      = cmd_configs_ret gs go (args.filter (optResolvesB go)) := by
  have key : cmd_configs_ret gs go args
      = cmd_configs_ret gs go (args.filter (optResolvesB go)) := by
    unfold cmd_configs_ret
    exact configs_foldl_filter gs go args []
  constructor
  · simp only [cmd_configs, if_neg h, key]
  · exact key

theorem cmd_configs_failures_omitted_witness :
    (["a.x", "b.y", "c"] : List String) ≠ [] ∧
    (cmd_configs (fun _ => [("s", "w")]) []
        (fun s t => if s = "a" ∧ t = "x" then some "v" else none) 0
        ["a.x", "b.y", "c"]
      = [(0, "CONFIGS",
          cmd_configs_ret (fun _ => [("s", "w")])
            (fun s t => if s = "a" ∧ t = "x" then some "v" else none)
            ((["a.x", "b.y", "c"] : List String).filter
              (optResolvesB
                (fun s t => if s = "a" ∧ t = "x" then some "v" else none))))] ∧
     cmd_configs_ret (fun _ => [("s", "w")])
        (fun s t => if s = "a" ∧ t = "x" then some "v" else none)
        ["a.x", "b.y", "c"]
      = cmd_configs_ret (fun _ => [("s", "w")])
          (fun s t => if s = "a" ∧ t = "x" then some "v" else none)
          ((["a.x", "b.y", "c"] : List String).filter
            (optResolvesB
              (fun s t => if s = "a" ∧ t = "x" then some "v" else none)))) :=
  ⟨by decide,
   cmd_configs_failures_omitted (fun _ => [("s", "w")]) []
     (fun s t => if s = "a" ∧ t = "x" then some "v" else none) 0
     ["a.x", "b.y", "c"] (by decide)⟩
